import Mathlib

/-!
Shallow embedding of `core/src/KokkosExp_MDRangePolicy.hpp` (experimental
multi-dimensional range policy): the `Iterate` direction enum, the backend
default-direction traits, the `Rank` iteration pattern with its static
assertions, the `MDRangePolicy` tile-geometry constructor (host/flattening
branch and Cuda/native branch), and the `md_parallel_for` /
`md_parallel_reduce` dispatch overloads.

Machine integers (`index_type`) are modelled as `Int`; the fixed-size
`Kokkos::Array<index_type, rank>` members are modelled as `List Int` of
length `rank`, read with `List.getD · · 0` and written with `List.set`.
C++ integer division truncates toward zero, so `/` on `index_type` is
`Int.tdiv`; division by zero is undefined behaviour in C++ and is modelled
by returning `none` from the constructor.
-/

/-- The C++ `enum class Iterate` with values Default, Left, Right (source lines 61-66). -/
inductive Iterate
  | Default
  | Left
  | Right
deriving DecidableEq, Repr

/-- The execution spaces the source file distinguishes: the constructor and
the dispatch functions branch only on `is_same<execution_space, Kokkos::Cuda>`;
all other backends take the host (flattening) branch. -/
inductive ExecSpace
  | Serial
  | OpenMP
  | Threads
  | Cuda
deriving DecidableEq, Repr

/-- Trait `default_outer_direction<ExecSpace>::value` (source lines 68-73): the
unspecialized primary template yields `Iterate::Right` for every space. -/
def default_outer_direction (_ : ExecSpace) : Iterate := Iterate.Right

/-- Trait `default_inner_direction<ExecSpace>::value` (source lines 75-80): the
unspecialized primary template yields `Iterate::Right` for every space. -/
def default_inner_direction (_ : ExecSpace) : Iterate := Iterate.Right

/-- The iteration pattern `Rank<N, OuterDir, InnerDir>` (source lines 84-99). -/
structure Rank where
  rank : Nat
  outer_direction : Iterate
  inner_direction : Iterate
deriving DecidableEq, Repr

/-- The three `static_assert`s guarding `Rank` (source lines 90-92):
`N != 0`, `N != 1`, `N < 7`.  An instantiation compiles iff they all hold. -/
def Rank.statically_valid (r : Rank) : Prop :=
  r.rank ≠ 0 ∧ r.rank ≠ 1 ∧ r.rank < 7

instance (r : Rank) : Decidable r.statically_valid := by
  unfold Rank.statically_valid; infer_instance

/-- The runtime state of `MDRangePolicy` (source lines 194-198):
`m_lower`, `m_upper`, `m_tile`, `m_tile_end`, `m_num_tiles`. -/
structure MDRangePolicy where
  m_lower : List Int
  m_upper : List Int
  m_tile : List Int
  m_tile_end : List Int
  m_num_tiles : Int
deriving DecidableEq, Repr

/-- Constant `MDRangePolicy::outer_direction` (source lines 118-121): the pattern's
outer direction when it is not `Default`, else the backend default. -/
def MDRangePolicy.outer_direction (pat : Iterate) (space : ExecSpace) : Iterate :=
  if pat ≠ Iterate.Default then pat else default_outer_direction space

/-- Constant `MDRangePolicy::inner_direction` (source lines 123-126): the pattern's
inner direction when it is not `Default`, else the backend default. -/
def MDRangePolicy.inner_direction (pat : Iterate) (space : ExecSpace) : Iterate :=
  if pat ≠ Iterate.Default then pat else default_inner_direction space

/-- C++ `/` on the integral `index_type` truncates toward zero; dividing by
zero is undefined behaviour, modelled as `none`. -/
def cppDiv (a b : Int) : Option Int :=
  if b = 0 then none else some (a.tdiv b)

/-- The per-dimension span `upper[i] - lower[i]` (source lines 153 and 173). -/
def spanAt (lower upper : List Int) (i : Nat) : Int :=
  upper.getD i 0 - lower.getD i 0

/-- The value `m_tile[i]` holds after the defaulting conditional of the host
branch (source lines 154-163): entries `<= 0` become `2` when the resolved
inner direction makes dimension `i` non-innermost, else the span; positive
entries are kept. -/
def resolveTileHost (inner : Iterate) (rank : Nat) (lower upper tile : List Int)
    (i : Nat) : Int :=
  if tile.getD i 0 ≤ 0 then
    if (inner = Iterate.Right ∧ i < rank - 1) ∨ (inner = Iterate.Left ∧ 0 < i) then 2
    else spanAt lower upper i
  else tile.getD i 0

/-- The value `m_tile_end[i] = (span + m_tile[i] - 1) / m_tile[i]` computed by
the host branch (source line 164), as a total function (meaningful only when
the divisor is nonzero). -/
def tileEndHost (inner : Iterate) (rank : Nat) (lower upper tile : List Int)
    (i : Nat) : Int :=
  (spanAt lower upper i + resolveTileHost inner rank lower upper tile i - 1).tdiv
    (resolveTileHost inner rank lower upper tile i)

/-- The host-branch construction loop (source lines 151-166), iterating the
dimension index `i` with `r` iterations remaining.  Each iteration defaults
`m_tile[i]` (writing `List.set i` with the resolved value; when the entry was
already positive this rewrites the same value, like the C++ which leaves it
untouched), computes `m_tile_end[i]`, and multiplies it into `m_num_tiles`. -/
def hostLoop (inner : Iterate) (rank : Nat) (lower upper : List Int) :
    Nat → Nat → List Int → List Int → Int → Option (List Int × List Int × Int)
  | 0, _, tile, tile_end, num => some (tile, tile_end, num)
  | r + 1, i, tile, tile_end, num =>
    match cppDiv (spanAt lower upper i + resolveTileHost inner rank lower upper tile i - 1)
        (resolveTileHost inner rank lower upper tile i) with
    | none => none
    | some q =>
      hostLoop inner rank lower upper r (i + 1)
        (tile.set i (resolveTileHost inner rank lower upper tile i))
        (tile_end.set i q) (num * q)

/-- The host (flattening) branch of the `MDRangePolicy` constructor
(source lines 138-167): members are initialized to the arguments,
`m_tile_end` default-initialized, `m_num_tiles = 1`, then the loop runs over
all `rank` dimensions.  `none` models the undefined division by zero. -/
def hostConstruct (inner : Iterate) (rank : Nat) (lower upper tile : List Int) :
    Option MDRangePolicy :=
  match hostLoop inner rank lower upper rank 0 tile (List.replicate rank 0) 1 with
  | none => none
  | some (t, te, n) => some ⟨lower, upper, t, te, n⟩

/-- One defaulting step of the Cuda branch (source lines 174-178): when
`m_tile[i] <= 0` the source executes `m_tile = 8;`, an assignment to the whole
member array, not to entry `i`.  Modelled from the spec: `Kokkos::Array`'s
scalar assignment (the array type is declared outside this file) writes the
scalar to every component, per the spec's words "default to a fixed constant
(8) for every dimension". -/
def cudaTileStep (tile : List Int) (rank : Nat) (i : Nat) : List Int :=
  if tile.getD i 0 ≤ 0 then List.replicate rank 8 else tile

/-- The Cuda-branch construction loop (source lines 171-181). -/
def cudaLoop (rank : Nat) (lower upper : List Int) :
    Nat → Nat → List Int → List Int → Int → Option (List Int × List Int × Int)
  | 0, _, tile, tile_end, num => some (tile, tile_end, num)
  | r + 1, i, tile, tile_end, num =>
    match cppDiv (spanAt lower upper i + (cudaTileStep tile rank i).getD i 0 - 1)
        ((cudaTileStep tile rank i).getD i 0) with
    | none => none
    | some q =>
      cudaLoop rank lower upper r (i + 1) (cudaTileStep tile rank i)
        (tile_end.set i q) (num * q)

/-- The `total_tile_size_check` product of all `m_tile[i]` accumulated by the loop
at source lines 182-185. -/
def tileProduct (tile : List Int) (rank : Nat) : Int :=
  (List.range rank).foldl (fun acc i => acc * tile.getD i 0) 1

/-- The Cuda (native) branch of the `MDRangePolicy` constructor (source
lines 169-190): run the loop, then abort (modelled as `none`) when the
resolved tile volume exceeds 1024 (`throw_runtime_exception`, line 188). -/
def cudaConstruct (rank : Nat) (lower upper tile : List Int) :
    Option MDRangePolicy :=
  match cudaLoop rank lower upper rank 0 tile (List.replicate rank 0) 1 with
  | none => none
  | some (t, te, n) =>
    if 1024 < tileProduct t rank then none else some ⟨lower, upper, t, te, n⟩

/-- The full constructor (source lines 138-192): branch on whether the
execution space is `Kokkos::Cuda` (source lines 145-149 and 168-169). -/
def MDRangePolicy.construct (space : ExecSpace) (inner : Iterate) (rank : Nat)
    (lower upper tile : List Int) : Option MDRangePolicy :=
  match space with
  | ExecSpace.Cuda => cudaConstruct rank lower upper tile
  | _ => hostConstruct inner rank lower upper tile

/-- The adapter `Impl::MDFunctor<MDRange, Functor, ValueType>` as the dispatch functions
build it: it captures the range, the functor, and (for reduce) the
accumulator.  The for-variant instantiates `ValueType = void`, modelled as
`Unit`. -/
structure MDFunctor (R F V : Type) where
  range : R
  functor : F
  value : V
deriving DecidableEq, Repr

/-- The call the host `md_parallel_for` overloads delegate to
(source lines 220 and 238): `Kokkos::parallel_for` over
`range_policy(0, range.m_num_tiles).set_chunk_size(1)` with the adapter `g`
and the label `str`. -/
structure ParallelForCall (F : Type) where
  policy_lo : Int
  policy_hi : Int
  chunk_size : Int
  functor : MDFunctor MDRangePolicy F Unit
  label : String
deriving DecidableEq, Repr

/-- The call the `md_parallel_reduce` overloads delegate to
(source lines 289 and 303): `Kokkos::parallel_reduce` with the label, the
policy `range_policy(0, range.m_num_tiles).set_chunk_size(1)`, the adapter
`g`, and the accumulator `v`. -/
structure ParallelReduceCall (F V : Type) where
  policy_lo : Int
  policy_hi : Int
  chunk_size : Int
  functor : MDFunctor MDRangePolicy F V
  label : String
deriving DecidableEq, Repr

/-- The label-last `md_parallel_for` overload (source lines 205-221). -/
def md_parallel_for (range : MDRangePolicy) (f : F) (str : String) :
    ParallelForCall F :=
  { policy_lo := 0
    policy_hi := range.m_num_tiles
    chunk_size := 1
    functor := ⟨range, f, ()⟩
    label := str }

/-- The label-first `md_parallel_for` overload (source lines 223-239). -/
def md_parallel_for_label_first (str : String) (range : MDRangePolicy) (f : F) :
    ParallelForCall F :=
  { policy_lo := 0
    policy_hi := range.m_num_tiles
    chunk_size := 1
    functor := ⟨range, f, ()⟩
    label := str }

/-- The label-last `md_parallel_reduce` overload (source lines 278-290). -/
def md_parallel_reduce (range : MDRangePolicy) (f : F) (v : V) (str : String) :
    ParallelReduceCall F V :=
  { policy_lo := 0
    policy_hi := range.m_num_tiles
    chunk_size := 1
    functor := ⟨range, f, v⟩
    label := str }

/-- The label-first `md_parallel_reduce` overload (source lines 292-304). -/
def md_parallel_reduce_label_first (str : String) (range : MDRangePolicy) (f : F)
    (v : V) : ParallelReduceCall F V :=
  { policy_lo := 0
    policy_hi := range.m_num_tiles
    chunk_size := 1
    functor := ⟨range, f, v⟩
    label := str }

-- ------------------------------------------------------------------ --
-- Theorems
-- ------------------------------------------------------------------ --

/-- Claim C6. For every policy, the resolved outer and inner directions equal
the backend default when the pattern specifies `Default`, and otherwise equal
exactly the direction the pattern specifies. -/
theorem resolved_directions_follow_pattern (pat : Iterate) (space : ExecSpace) :
    MDRangePolicy.outer_direction pat space =
      (if pat = Iterate.Default then default_outer_direction space else pat) ∧
    MDRangePolicy.inner_direction pat space =
      (if pat = Iterate.Default then default_inner_direction space else pat) := by
  cases pat <;>
    simp [MDRangePolicy.outer_direction, MDRangePolicy.inner_direction]

/-- Claim C7. Instantiating `Rank<N, ...>` passes the compile-time assertions
exactly when `2 ≤ N ≤ 6`, and an accepted instantiation exposes `rank = N`. -/
theorem rank_statically_valid_iff (N : Nat) (o i : Iterate) :
    ((Rank.mk N o i).statically_valid ↔ 2 ≤ N ∧ N ≤ 6) ∧
      (Rank.mk N o i).rank = N := by
  refine ⟨?_, rfl⟩
  simp only [Rank.statically_valid]
  omega

/-- Claim C10. For every execution space the unspecialized default-direction
traits give `Right` for both the outer and the inner direction, so a pattern
leaving a direction as `Default` resolves it to `Right` on every backend. -/
theorem backend_defaults_are_right (space : ExecSpace) :
    default_outer_direction space = Iterate.Right ∧
    default_inner_direction space = Iterate.Right ∧
    MDRangePolicy.outer_direction Iterate.Default space = Iterate.Right ∧
    MDRangePolicy.inner_direction Iterate.Default space = Iterate.Right :=
  ⟨rfl, rfl, rfl, rfl⟩

/-- Claim C8. The label-first overloads of `md_parallel_for` and
`md_parallel_reduce` build exactly the same adapter and delegate exactly the
same dispatch (range `[0, m_num_tiles)`, chunk size 1) as the label-last
overloads; the label changes no component other than itself. -/
theorem md_parallel_overloads_equivalent {F V : Type} (range : MDRangePolicy)
    (f : F) (v : V) (str : String) :
    md_parallel_for_label_first str range f = md_parallel_for range f str ∧
    md_parallel_reduce_label_first str range f v = md_parallel_reduce range f v str ∧
    (md_parallel_for range f str).policy_lo = 0 ∧
    (md_parallel_for range f str).policy_hi = range.m_num_tiles ∧
    (md_parallel_for range f str).chunk_size = 1 ∧
    (md_parallel_for range f str).functor = ⟨range, f, ()⟩ ∧
    (md_parallel_reduce range f v str).policy_lo = 0 ∧
    (md_parallel_reduce range f v str).policy_hi = range.m_num_tiles ∧
    (md_parallel_reduce range f v str).chunk_size = 1 ∧
    (md_parallel_reduce range f v str).functor = ⟨range, f, v⟩ ∧
    (∀ str2 : String,
      (md_parallel_for range f str2).functor = (md_parallel_for range f str).functor ∧
      (md_parallel_for range f str2).policy_hi = (md_parallel_for range f str).policy_hi ∧
      (md_parallel_reduce range f v str2).functor =
        (md_parallel_reduce range f v str).functor ∧
      (md_parallel_reduce range f v str2).policy_hi =
        (md_parallel_reduce range f v str).policy_hi) :=
  ⟨rfl, rfl, rfl, rfl, rfl, rfl, rfl, rfl, rfl, rfl,
    fun _ => ⟨rfl, rfl, rfl, rfl⟩⟩

-- ------------------------------------------------------------------ --
-- Helper lemmas about list reads/writes and the loop characterization
-- ------------------------------------------------------------------ --

theorem getD_set_self (l : List Int) (i : Nat) (a : Int) (h : i < l.length) :
    (l.set i a).getD i 0 = a := by
  simp [List.getD_eq_getElem?_getD, List.getElem?_set_self h]

theorem getD_set_ne (l : List Int) {i j : Nat} (h : i ≠ j) (a : Int) :
    (l.set i a).getD j 0 = l.getD j 0 := by
  simp [List.getD_eq_getElem?_getD, List.getElem?_set_ne h]

theorem resolveTileHost_congr {inner : Iterate} {rank : Nat}
    {lower upper tile tile2 : List Int} {j : Nat}
    (h : tile.getD j 0 = tile2.getD j 0) :
    resolveTileHost inner rank lower upper tile j =
      resolveTileHost inner rank lower upper tile2 j := by
  simp only [resolveTileHost, h]

theorem tileEndHost_congr {inner : Iterate} {rank : Nat}
    {lower upper tile tile2 : List Int} {j : Nat}
    (h : tile.getD j 0 = tile2.getD j 0) :
    tileEndHost inner rank lower upper tile j =
      tileEndHost inner rank lower upper tile2 j := by
  simp only [tileEndHost, resolveTileHost_congr h]

/-- Characterization of a successful host-branch loop run: dimensions below
`i` are untouched, dimensions in `[i, rank)` receive the resolved tile size
and tile count, and the tile total is multiplied in. -/
theorem hostLoop_some_inv (inner : Iterate) (rank : Nat) (lower upper : List Int) :
    ∀ (r i : Nat) (tile te : List Int) (n : Int) (T TE : List Int) (N : Int),
      i + r = rank → tile.length = rank → te.length = rank →
      hostLoop inner rank lower upper r i tile te n = some (T, TE, N) →
      (∀ j, j < i → T.getD j 0 = tile.getD j 0 ∧ TE.getD j 0 = te.getD j 0) ∧
      (∀ j, i ≤ j → j < rank →
        T.getD j 0 = resolveTileHost inner rank lower upper tile j ∧
        TE.getD j 0 = tileEndHost inner rank lower upper tile j) ∧
      N = n * ∏ j ∈ Finset.Ico i rank, tileEndHost inner rank lower upper tile j := by
  intro r
  induction r with
  | zero =>
    intro i tile te n T TE N hir _ _ hloop
    simp only [hostLoop, Option.some.injEq, Prod.mk.injEq] at hloop
    obtain ⟨hT, hTE, hN⟩ := hloop
    subst hT hTE hN
    have hi : i = rank := by omega
    subst hi
    refine ⟨fun j _ => ⟨rfl, rfl⟩, fun j hij hjr => absurd hjr (by omega), ?_⟩
    simp [Finset.Ico_self]
  | succ r ih =>
    intro i tile te n T TE N hir hlt hlte hloop
    have hilt : i < rank := by omega
    simp only [hostLoop] at hloop
    cases hd : cppDiv
        (spanAt lower upper i + resolveTileHost inner rank lower upper tile i - 1)
        (resolveTileHost inner rank lower upper tile i) with
    | none => rw [hd] at hloop; simp at hloop
    | some q =>
      rw [hd] at hloop
      have hrt : resolveTileHost inner rank lower upper tile i ≠ 0 := by
        intro h0
        rw [h0] at hd
        simp [cppDiv] at hd
      have hq : q = tileEndHost inner rank lower upper tile i := by
        simp only [cppDiv, if_neg hrt, Option.some.injEq] at hd
        rw [← hd, tileEndHost]
      obtain ⟨P1, P2, P3⟩ :=
        ih (i + 1) (tile.set i (resolveTileHost inner rank lower upper tile i))
          (te.set i q) (n * q) T TE N (by omega) (by simp [hlt]) (by simp [hlte]) hloop
      refine ⟨?_, ?_, ?_⟩
      · intro j hj
        have h := P1 j (by omega)
        rwa [getD_set_ne tile (by omega) _, getD_set_ne te (by omega) _] at h
      · intro j hij hjr
        by_cases hji : j = i
        · subst hji
          have h := P1 j (by omega)
          rwa [getD_set_self tile j _ (by omega),
            getD_set_self te j _ (by omega), hq] at h
        · have h := P2 j (by omega) hjr
          have hne : i ≠ j := fun he => hji he.symm
          rwa [resolveTileHost_congr (getD_set_ne tile hne _),
            tileEndHost_congr (getD_set_ne tile hne _)] at h
      · have hprod :
            ∏ j ∈ Finset.Ico (i + 1) rank,
              tileEndHost inner rank lower upper
                (tile.set i (resolveTileHost inner rank lower upper tile i)) j =
            ∏ j ∈ Finset.Ico (i + 1) rank,
              tileEndHost inner rank lower upper tile j := by
          refine Finset.prod_congr rfl fun j hj => ?_
          rw [Finset.mem_Ico] at hj
          have hne : i ≠ j := by omega
          exact tileEndHost_congr (getD_set_ne tile hne _)
        rw [P3, hprod, Finset.prod_eq_prod_Ico_succ_bot hilt, hq]
        ring

/-- The host-branch loop completes when every still-unprocessed dimension has
a nonzero resolved tile size. -/
theorem hostLoop_total (inner : Iterate) (rank : Nat) (lower upper : List Int) :
    ∀ (r i : Nat) (tile te : List Int) (n : Int),
      i + r = rank →
      (∀ j, i ≤ j → j < rank → resolveTileHost inner rank lower upper tile j ≠ 0) →
      ∃ out, hostLoop inner rank lower upper r i tile te n = some out := by
  intro r
  induction r with
  | zero => intro i tile te n _ _; exact ⟨(tile, te, n), rfl⟩
  | succ r ih =>
    intro i tile te n hir hnz
    have hi : resolveTileHost inner rank lower upper tile i ≠ 0 :=
      hnz i (Nat.le_refl i) (by omega)
    have hnz2 : ∀ j, i + 1 ≤ j → j < rank →
        resolveTileHost inner rank lower upper
          (tile.set i (resolveTileHost inner rank lower upper tile i)) j ≠ 0 := by
      intro j hij hjr
      rw [resolveTileHost_congr (getD_set_ne tile (by omega) _)]
      exact hnz j (by omega) hjr
    simp only [hostLoop, cppDiv, if_neg hi]
    exact ih (i + 1) _ _ _ (by omega) hnz2

/-- The host-branch loop aborts (division by zero) as soon as it reaches a
dimension whose resolved tile size is zero. -/
theorem hostLoop_none (inner : Iterate) (rank : Nat) (lower upper : List Int) :
    ∀ (r i k : Nat) (tile te : List Int) (n : Int),
      i ≤ k → k < i + r →
      resolveTileHost inner rank lower upper tile k = 0 →
      hostLoop inner rank lower upper r i tile te n = none := by
  intro r
  induction r with
  | zero => intro i k tile te n hik hk _; omega
  | succ r ih =>
    intro i k tile te n hik hk h0
    by_cases hik2 : i = k
    · subst hik2
      simp [hostLoop, cppDiv, h0]
    · simp only [hostLoop]
      cases hd : cppDiv
          (spanAt lower upper i + resolveTileHost inner rank lower upper tile i - 1)
          (resolveTileHost inner rank lower upper tile i) with
      | none => rfl
      | some q =>
        apply ih (i + 1) k _ _ _ (by omega) (by omega)
        rw [resolveTileHost_congr (getD_set_ne tile (by omega) _)]
        exact h0

/-- Successful host-branch construction stores the bounds verbatim and fills
`m_tile`, `m_tile_end`, `m_num_tiles` as the per-dimension resolution
dictates. -/
theorem hostConstruct_some_inv (inner : Iterate) (rank : Nat)
    (lower upper tile : List Int) (g : MDRangePolicy)
    (hlen : tile.length = rank)
    (h : hostConstruct inner rank lower upper tile = some g) :
    g.m_lower = lower ∧ g.m_upper = upper ∧
    (∀ j, j < rank →
      g.m_tile.getD j 0 = resolveTileHost inner rank lower upper tile j ∧
      g.m_tile_end.getD j 0 = tileEndHost inner rank lower upper tile j) ∧
    g.m_num_tiles = ∏ j ∈ Finset.range rank, tileEndHost inner rank lower upper tile j := by
  unfold hostConstruct at h
  cases hl : hostLoop inner rank lower upper rank 0 tile (List.replicate rank 0) 1 with
  | none => rw [hl] at h; simp at h
  | some out =>
    obtain ⟨T, TE, N⟩ := out
    rw [hl] at h
    simp only [Option.some.injEq] at h
    subst h
    obtain ⟨_, P2, P3⟩ :=
      hostLoop_some_inv inner rank lower upper rank 0 tile _ 1 T TE N
        (by omega) hlen (by simp) hl
    refine ⟨rfl, rfl, fun j hj => P2 j (Nat.zero_le j) hj, ?_⟩
    rw [P3, one_mul, Finset.range_eq_Ico]

/-- Host-branch construction succeeds whenever every resolved tile size is
nonzero (in particular there is no tile-volume check on this branch). -/
theorem hostConstruct_total (inner : Iterate) (rank : Nat)
    (lower upper tile : List Int)
    (h : ∀ j, j < rank → resolveTileHost inner rank lower upper tile j ≠ 0) :
    ∃ g, hostConstruct inner rank lower upper tile = some g := by
  obtain ⟨⟨T, TE, N⟩, hout⟩ :=
    hostLoop_total inner rank lower upper rank 0 tile (List.replicate rank 0) 1
      (by omega) (fun j _ hj => h j hj)
  exact ⟨⟨lower, upper, T, TE, N⟩, by unfold hostConstruct; rw [hout]⟩

/-- Whether any of the `r` dimension entries starting at index `i` of the tile
hint is unset (`<= 0`), i.e. whether the Cuda branch's whole-array default
assignment fires at some remaining iteration. -/
def hasUnsetFrom (tile : List Int) : Nat → Nat → Bool
  | _, 0 => false
  | i, r + 1 => decide (tile.getD i 0 ≤ 0) || hasUnsetFrom tile (i + 1) r

/-- The `m_tile` array a Cuda-branch construction ends with: the original
hint if every dimension's hint is positive, otherwise all-8s (the whole-array
assignment `m_tile = 8` at source line 177). -/
def finalTileCuda (tile : List Int) (rank : Nat) : List Int :=
  if hasUnsetFrom tile 0 rank then List.replicate rank 8 else tile

theorem getD_replicate (n : Nat) (a : Int) (i : Nat) (h : i < n) :
    (List.replicate n a).getD i 0 = a := by
  simp [List.getD_eq_getElem?_getD, List.getElem?_replicate, h]

/-- The Cuda-branch loop always completes (its divisors are 8 or a positive
hint, never zero), and its final `m_tile` is the original hint list if none of
the remaining dimensions is unset, and all-8s otherwise. -/
theorem cudaLoop_run (rank : Nat) (lower upper : List Int) :
    ∀ (r i : Nat) (tile te : List Int) (n : Int),
      i + r = rank →
      ∃ TE N, cudaLoop rank lower upper r i tile te n =
        some ((if hasUnsetFrom tile i r then List.replicate rank 8 else tile), TE, N) := by
  intro r
  induction r with
  | zero =>
    intro i tile te n _
    exact ⟨te, n, by simp [cudaLoop, hasUnsetFrom]⟩
  | succ r ih =>
    intro i tile te n hir
    have hilt : i < rank := by omega
    simp only [cudaLoop]
    by_cases h0 : tile.getD i 0 ≤ 0
    · have hstep : cudaTileStep tile rank i = List.replicate rank 8 := by
        unfold cudaTileStep
        rw [if_pos h0]
      have hd8 : (cudaTileStep tile rank i).getD i 0 = 8 := by
        rw [hstep]
        exact getD_replicate rank 8 i hilt
      have hu : hasUnsetFrom tile i (r + 1) = true := by
        rw [show hasUnsetFrom tile i (r + 1)
              = (decide (tile.getD i 0 ≤ 0) || hasUnsetFrom tile (i + 1) r) from rfl,
          decide_eq_true h0, Bool.true_or]
      have hdiv : cppDiv (spanAt lower upper i + (cudaTileStep tile rank i).getD i 0 - 1)
          ((cudaTileStep tile rank i).getD i 0)
          = some ((spanAt lower upper i + 8 - 1).tdiv 8) := by
        rw [hd8]
        unfold cppDiv
        rw [if_neg (by norm_num)]
      simp only [hdiv]
      simp only [hstep]
      obtain ⟨TE, N, hrec⟩ :=
        ih (i + 1) (List.replicate rank 8)
          (te.set i ((spanAt lower upper i + 8 - 1).tdiv 8))
          (n * (spanAt lower upper i + 8 - 1).tdiv 8) (by omega)
      refine ⟨TE, N, ?_⟩
      rw [hrec, ite_self, hu]
      simp
    · have hstep : cudaTileStep tile rank i = tile := by
        unfold cudaTileStep
        rw [if_neg h0]
      have hne : tile.getD i 0 ≠ 0 := by omega
      have hu : hasUnsetFrom tile i (r + 1) = hasUnsetFrom tile (i + 1) r := by
        rw [show hasUnsetFrom tile i (r + 1)
              = (decide (tile.getD i 0 ≤ 0) || hasUnsetFrom tile (i + 1) r) from rfl,
          decide_eq_false h0, Bool.false_or]
      have hdiv : cppDiv (spanAt lower upper i + (cudaTileStep tile rank i).getD i 0 - 1)
          ((cudaTileStep tile rank i).getD i 0)
          = some ((spanAt lower upper i + tile.getD i 0 - 1).tdiv (tile.getD i 0)) := by
        rw [hstep]
        unfold cppDiv
        rw [if_neg hne]
      simp only [hdiv]
      simp only [hstep]
      obtain ⟨TE, N, hrec⟩ :=
        ih (i + 1) tile
          (te.set i ((spanAt lower upper i + tile.getD i 0 - 1).tdiv (tile.getD i 0)))
          (n * (spanAt lower upper i + tile.getD i 0 - 1).tdiv (tile.getD i 0)) (by omega)
      refine ⟨TE, N, ?_⟩
      rw [hrec, hu]

/-- A Cuda-branch construction aborts exactly when the tile volume of its
final `m_tile` array exceeds 1024. -/
theorem cudaConstruct_none_iff (rank : Nat) (lower upper tile : List Int) :
    cudaConstruct rank lower upper tile = none ↔
      1024 < tileProduct (finalTileCuda tile rank) rank := by
  obtain ⟨TE, N, hloop⟩ :=
    cudaLoop_run rank lower upper rank 0 tile (List.replicate rank 0) 1 (by omega)
  unfold cudaConstruct
  rw [hloop]
  unfold finalTileCuda
  by_cases h : 1024 < tileProduct (if hasUnsetFrom tile 0 rank then List.replicate rank 8 else tile) rank
  · simp [h]
  · simp [h]

/-- A successful Cuda-branch construction stores the bounds verbatim and its
`m_tile` is the `finalTileCuda` array. -/
theorem cudaConstruct_some_inv (rank : Nat) (lower upper tile : List Int)
    (g : MDRangePolicy) (h : cudaConstruct rank lower upper tile = some g) :
    g.m_lower = lower ∧ g.m_upper = upper ∧ g.m_tile = finalTileCuda tile rank := by
  obtain ⟨TE, N, hloop⟩ :=
    cudaLoop_run rank lower upper rank 0 tile (List.replicate rank 0) 1 (by omega)
  unfold cudaConstruct at h
  rw [hloop] at h
  have h2 : (if 1024 < tileProduct (finalTileCuda tile rank) rank then none
      else some (MDRangePolicy.mk lower upper (finalTileCuda tile rank) TE N)) = some g := h
  by_cases hp : 1024 < tileProduct (finalTileCuda tile rank) rank
  · rw [if_pos hp] at h2
    exact absurd h2 (by simp)
  · rw [if_neg hp] at h2
    simp only [Option.some.injEq] at h2
    subst h2
    exact ⟨rfl, rfl, rfl⟩

/-- Truncating C++ division computes the rational ceiling of `a / b` via the
`(a + b - 1) / b` idiom, for a nonnegative numerator and positive divisor. -/
theorem ceil_div_eq_tdiv (a b : Int) (ha : 0 ≤ a) (hb : 1 ≤ b) :
    ⌈(a : ℚ) / (b : ℚ)⌉ = (a + b - 1).tdiv b := by
  have hb0 : (0 : Int) < b := by omega
  rw [Int.tdiv_eq_ediv (by omega) (by omega)]
  have hmod := Int.ediv_add_emod (a + b - 1) b
  have hmn : 0 ≤ (a + b - 1) % b := Int.emod_nonneg _ (by omega)
  have hml : (a + b - 1) % b < b := Int.emod_lt_of_pos _ hb0
  rw [Int.ceil_eq_iff]
  constructor
  · rw [show ((((a + b - 1) / b : Int) : ℚ) - 1) = (((a + b - 1) / b - 1 : Int) : ℚ) by
      push_cast; ring]
    rw [lt_div_iff₀ (by exact_mod_cast hb0)]
    have key : ((a + b - 1) / b - 1) * b < a := by
      have e1 : ((a + b - 1) / b - 1) * b = b * ((a + b - 1) / b) - b := by ring
      omega
    exact_mod_cast key
  · rw [div_le_iff₀ (by exact_mod_cast hb0)]
    have key : a ≤ ((a + b - 1) / b) * b := by
      have e1 : ((a + b - 1) / b) * b = b * ((a + b - 1) / b) := by ring
      omega
    exact_mod_cast key

/-- Claim C1. On the flattening (host) branch, a dimension with an unset tile
hint resolves to tile size 2 when it is not the innermost contiguous
dimension for the resolved inner direction (Right and not last, or Left and
not first), and to the dimension's span otherwise; the rank-2 scenario with
bounds `{0,0}`-`{10,10}`, unset tile and inner `Right` yields tile `{2,10}`,
tile counts `{5,1}` and 5 total tiles. -/
theorem host_default_tile_sizes :
    (∀ (inner : Iterate) (rank : Nat) (lower upper tile : List Int)
        (g : MDRangePolicy),
      2 ≤ rank → rank ≤ 6 → tile.length = rank →
      hostConstruct inner rank lower upper tile = some g →
      ∀ i, i < rank → tile.getD i 0 ≤ 0 →
        g.m_tile.getD i 0 =
          (if (inner = Iterate.Right ∧ i < rank - 1) ∨ (inner = Iterate.Left ∧ 0 < i)
           then 2 else upper.getD i 0 - lower.getD i 0)) ∧
    hostConstruct Iterate.Right 2 [0, 0] [10, 10] [0, 0] =
      some ⟨[0, 0], [10, 10], [2, 10], [5, 1], 5⟩ := by
  constructor
  · intro inner rank lower upper tile g _ _ hlen hg i hi hunset
    obtain ⟨_, _, P2, _⟩ := hostConstruct_some_inv inner rank lower upper tile g hlen hg
    rw [(P2 i hi).1]
    unfold resolveTileHost spanAt
    rw [if_pos hunset]
  · decide

/-- Witness for C1: inner direction `Left`, dimension 0 is the contiguous
one, so an unset hint resolves to the span 10. -/
theorem host_default_tile_sizes_witness :
    (MDRangePolicy.mk [0, 0] [10, 10] [10, 2] [1, 5] 5).m_tile.getD 0 0 =
      (if (Iterate.Left = Iterate.Right ∧ 0 < 2 - 1) ∨ (Iterate.Left = Iterate.Left ∧ 0 < 0)
       then 2 else [10, 10].getD 0 0 - [0, 0].getD 0 0) :=
  host_default_tile_sizes.1 Iterate.Left 2 [0, 0] [10, 10] [0, 0]
    (MDRangePolicy.mk [0, 0] [10, 10] [10, 2] [1, 5] 5)
    (by decide) (by decide) (by decide) (by decide) 0 (by decide) (by decide)

/-- Claim C2. On the flattening (host) branch the identity holds: for valid
inputs (rank, nonnegative spans, resolved tile sizes at least 1),
`m_tile_end[i] = ceil(span[i] / m_tile[i])` and `m_num_tiles` is the product
of the `m_tile_end[i]`.  On the Cuda (native) branch the identity fails:
with hint `{4,0}` the whole-array default `m_tile = 8` overwrites the
already-consumed hint 4, leaving `m_tile_end[0] = 3` while
`ceil(span[0] / m_tile[0]) = ceil(10/8) = 2`. -/
theorem tile_count_identity :
    (∀ (inner : Iterate) (rank : Nat) (lower upper tile : List Int),
      2 ≤ rank → rank ≤ 6 → tile.length = rank →
      (∀ i, i < rank → lower.getD i 0 ≤ upper.getD i 0) →
      (∀ i, i < rank → 1 ≤ resolveTileHost inner rank lower upper tile i) →
      ∃ g, hostConstruct inner rank lower upper tile = some g ∧
        (∀ i, i < rank →
          g.m_tile_end.getD i 0 =
            ⌈(spanAt lower upper i : ℚ) / (g.m_tile.getD i 0 : ℚ)⌉) ∧
        g.m_num_tiles = ∏ i ∈ Finset.range rank, g.m_tile_end.getD i 0) ∧
    (cudaConstruct 2 [0, 0] [10, 10] [4, 0] =
        some (MDRangePolicy.mk [0, 0] [10, 10] [8, 8] [3, 2] 6) ∧
      (MDRangePolicy.mk [0, 0] [10, 10] [8, 8] [3, 2] 6).m_tile_end.getD 0 0 ≠
        ⌈(spanAt [0, 0] [10, 10] 0 : ℚ) /
          ((MDRangePolicy.mk [0, 0] [10, 10] [8, 8] [3, 2] 6).m_tile.getD 0 0 : ℚ)⌉) := by
  refine ⟨?_, by decide, ?_⟩
  · intro inner rank lower upper tile _ _ hlen hlow hres
    obtain ⟨g, hg⟩ := hostConstruct_total inner rank lower upper tile
      (fun j hj => by have := hres j hj; omega)
    obtain ⟨_, _, P2, P3⟩ := hostConstruct_some_inv inner rank lower upper tile g hlen hg
    refine ⟨g, hg, fun i hi => ?_, ?_⟩
    · rw [(P2 i hi).2, (P2 i hi).1]
      have ha : 0 ≤ spanAt lower upper i := by
        have := hlow i hi
        unfold spanAt
        omega
      unfold tileEndHost
      exact (ceil_div_eq_tdiv _ _ ha (hres i hi)).symm
    · rw [P3]
      exact Finset.prod_congr rfl fun i hi => ((P2 i (Finset.mem_range.mp hi)).2).symm
  · have h8 : ((MDRangePolicy.mk [0, 0] [10, 10] [8, 8] [3, 2] 6).m_tile.getD 0 0) =
        (8 : Int) := by decide
    have hs : spanAt [0, 0] [10, 10] 0 = (10 : Int) := by decide
    rw [h8, hs, ceil_div_eq_tdiv 10 8 (by norm_num) (by norm_num)]
    decide

/-- Witness for C2's host-branch identity at rank 2, bounds `{0,0}`-`{10,10}`,
hint `{3,3}`. -/
theorem tile_count_identity_witness :
    ∃ g, hostConstruct Iterate.Right 2 [0, 0] [10, 10] [3, 3] = some g ∧
      (∀ i, i < 2 →
        g.m_tile_end.getD i 0 =
          ⌈(spanAt [0, 0] [10, 10] i : ℚ) / (g.m_tile.getD i 0 : ℚ)⌉) ∧
      g.m_num_tiles = ∏ i ∈ Finset.range 2, g.m_tile_end.getD i 0 :=
  tile_count_identity.1 Iterate.Right 2 [0, 0] [10, 10] [3, 3]
    (by decide) (by decide) (by decide) (by decide) (by decide)

/-- Claim C3. A Cuda-branch construction aborts exactly when the product of the
resolved tile sizes exceeds 1024; a volume of exactly 1024 succeeds, 1025
fails, and the host (flattening) branch performs no such check (it succeeds
with tile volume 4096). -/
theorem cuda_tile_volume_limit :
    (∀ (rank : Nat) (lower upper tile : List Int),
      cudaConstruct rank lower upper tile = none ↔
        1024 < tileProduct (finalTileCuda tile rank) rank) ∧
    cudaConstruct 2 [0, 0] [32, 32] [32, 32] =
      some ⟨[0, 0], [32, 32], [32, 32], [1, 1], 1⟩ ∧
    cudaConstruct 2 [0, 0] [32, 32] [25, 41] = none ∧
    hostConstruct Iterate.Right 2 [0, 0] [32, 32] [64, 64] =
      some ⟨[0, 0], [32, 32], [64, 64], [1, 1], 1⟩ :=
  ⟨cudaConstruct_none_iff, by decide, by decide, by decide⟩

/-- Claim C4. The host branch divides by zero when the dimension that the
`else` defaulting branch picks (the last for inner `Right`, the first for
inner `Left`) has span 0 and an unset hint: construction aborts (`none`),
so the constructor is not total over inputs with `upper[i] >= lower[i]`. -/
theorem host_zero_span_division_aborts :
    (∀ (inner : Iterate) (rank : Nat) (lower upper tile : List Int),
      2 ≤ rank →
      ((inner = Iterate.Right ∧ upper.getD (rank - 1) 0 = lower.getD (rank - 1) 0 ∧
          tile.getD (rank - 1) 0 ≤ 0) ∨
        (inner = Iterate.Left ∧ upper.getD 0 0 = lower.getD 0 0 ∧
          tile.getD 0 0 ≤ 0)) →
      hostConstruct inner rank lower upper tile = none) ∧
    hostConstruct Iterate.Right 2 [0, 0] [10, 0] [0, 0] = none := by
  constructor
  · intro inner rank lower upper tile h2 hcase
    unfold hostConstruct
    have hnone : hostLoop inner rank lower upper rank 0 tile (List.replicate rank 0) 1
        = none := by
      rcases hcase with ⟨hin, hspan, hunset⟩ | ⟨hin, hspan, hunset⟩
      · apply hostLoop_none inner rank lower upper rank 0 (rank - 1) _ _ _
          (by omega) (by omega)
        have hcond : ¬((inner = Iterate.Right ∧ rank - 1 < rank - 1) ∨
            (inner = Iterate.Left ∧ 0 < rank - 1)) := by
          rw [hin]
          simp
        unfold resolveTileHost spanAt
        rw [if_pos hunset, if_neg hcond]
        omega
      · apply hostLoop_none inner rank lower upper rank 0 0 _ _ _
          (by omega) (by omega)
        have hcond : ¬((inner = Iterate.Right ∧ 0 < rank - 1) ∨
            (inner = Iterate.Left ∧ 0 < 0)) := by
          rw [hin]
          simp
        unfold resolveTileHost spanAt
        rw [if_pos hunset, if_neg hcond]
        omega
    rw [hnone]
  · decide

/-- Witness for C4: inner `Left`, first dimension of span 0 with unset hint. -/
theorem host_zero_span_division_aborts_witness :
    hostConstruct Iterate.Left 2 [0, 0] [0, 10] [0, 0] = none :=
  host_zero_span_division_aborts.1 Iterate.Left 2 [0, 0] [0, 10] [0, 0]
    (by decide) (Or.inr (by decide))

/-- Claim C5. Evaluating the Cuda branch at hint `{4,0}` (rank 2, bounds
`{0,0}`-`{10,10}`): the whole-array assignment `m_tile = 8` fires at
dimension 1 and also overwrites dimension 0's positive hint 4, so the stored
tile is `{8,8}`, not `{4,8}`; a fully unset rank-3 hint still produces the
all-8 tiling `{8,8,8}` with counts `{2,2,2}` and 8 total tiles. -/
theorem cuda_tile_defaulting_behaviour :
    cudaConstruct 2 [0, 0] [10, 10] [4, 0] =
        some ⟨[0, 0], [10, 10], [8, 8], [3, 2], 6⟩ ∧
      cudaConstruct 3 [0, 0, 0] [10, 10, 10] [0, 0, 0] =
        some ⟨[0, 0, 0], [10, 10, 10], [8, 8, 8], [2, 2, 2], 8⟩ :=
  ⟨by decide, by decide⟩

/-- Claim C9. A successful host-branch construction stores the caller's lower
and upper bounds verbatim, and every dimension whose hint is positive keeps
exactly that hint (even when it exceeds the span); only entries `<= 0` are
replaced. -/
theorem host_preserves_bounds_and_hints :
    ∀ (inner : Iterate) (rank : Nat) (lower upper tile : List Int)
      (g : MDRangePolicy),
      tile.length = rank →
      hostConstruct inner rank lower upper tile = some g →
      g.m_lower = lower ∧ g.m_upper = upper ∧
      (∀ i, i < rank → 1 ≤ tile.getD i 0 → g.m_tile.getD i 0 = tile.getD i 0) := by
  intro inner rank lower upper tile g hlen hg
  obtain ⟨hL, hU, P2, _⟩ := hostConstruct_some_inv inner rank lower upper tile g hlen hg
  refine ⟨hL, hU, fun i hi hpos => ?_⟩
  rw [(P2 i hi).1]
  unfold resolveTileHost
  rw [if_neg (by omega)]

/-- Witness for C9: hint `{100,100}` far exceeds the spans (3 each) and is
kept verbatim. -/
theorem host_preserves_bounds_and_hints_witness :
    (MDRangePolicy.mk [0, 0] [3, 3] [100, 100] [1, 1] 1).m_lower = [0, 0] ∧
    (MDRangePolicy.mk [0, 0] [3, 3] [100, 100] [1, 1] 1).m_upper = [3, 3] ∧
    (∀ i, i < 2 → 1 ≤ ([100, 100] : List Int).getD i 0 →
      (MDRangePolicy.mk [0, 0] [3, 3] [100, 100] [1, 1] 1).m_tile.getD i 0 =
        ([100, 100] : List Int).getD i 0) :=
  host_preserves_bounds_and_hints Iterate.Right 2 [0, 0] [3, 3] [100, 100]
    (MDRangePolicy.mk [0, 0] [3, 3] [100, 100] [1, 1] 1) (by decide) (by decide)
